import Mathlib

/-! Dingaling: identifier codec, subscription and broadcast core.

A shallow embedding of `dinger.go` and of the dinger-creation handler of
`dingaling.go`, together with the properties of the identifier codec
(`DingerIdToKey` / `KeyToDingerId`), of client creation (`MakeClient`),
of the broadcast loop (`PostDing`) and of dinger creation
(`handleNewDinger`).

The Go standard library and the App Engine services the program calls are
not part of the repository.  They are modelled here by what they are
documented to do:

* `regexp.MatchString` for the one pattern used, `^[0-9A-Fa-f]+$`;
* `fmt.Sscanf(s, "%d", &id)` for an `int64` operand;
* `fmt.Sprint` of an `int64` / of a `*big.Int`;
* `datastore.Put`, `datastore.Delete`, the query iterator, `channel.Create`,
  `channel.Send` and `rand.Int`, whose outcomes (success or error) are
  supplied by an environment, so that every theorem holds for every
  behaviour of these collaborators.
-/

namespace Dingaling

/-! ## Errors -/

/-- The ways `fmt.Sscanf(s, "%d", &id)` fails. -/
inductive ScanError where
  | unexpectedEOF
  | unexpectedNewline
  | expectedInteger
  | outOfRange (tok : String)
deriving DecidableEq, Repr

/-- An `os.Error` value.  The two errors `DingerIdToKey` builds with
`os.NewError` keep the value that is formatted into their text; every
error that comes from a collaborator (datastore, channel, random source,
response writer) is `external`. -/
inductive Error where
  | invalidDingerId (idStr : String)
  | parseDingerId (cause : ScanError)
  | external (msg : String)
deriving DecidableEq, Repr

/-- Equality of results is decidable when it is for errors and for values. -/
instance instDecidableEqExcept {ε α : Type} [DecidableEq ε] [DecidableEq α] :
    DecidableEq (Except ε α)
  | .ok a, .ok b => if h : a = b then isTrue (by rw [h]) else isFalse (fun h2 => h (Except.ok.inj h2))
  | .error a, .error b =>
    if h : a = b then isTrue (by rw [h]) else isFalse (fun h2 => h (Except.error.inj h2))
  | .ok _, .error _ => isFalse (fun h => Except.noConfusion h)
  | .error _, .ok _ => isFalse (fun h => Except.noConfusion h)

/-! ## Datastore keys -/

/-- A `*datastore.Key`: kind, string id, integer id and parent key. -/
inductive Key where
  | root (kind : String) (stringID : String) (intID : Int)
  | child (kind : String) (stringID : String) (intID : Int) (parent : Key)
deriving DecidableEq, Repr

/-- The function `datastore.NewKey(kind, stringID, intID, parent)`; a nil parent is `none`. -/
def NewKey (kind : String) (stringID : String) (intID : Int) : Option Key → Key
  | none => Key.root kind stringID intID
  | some p => Key.child kind stringID intID p

/-- The method `key.Kind()`. -/
def Key.Kind : Key → String
  | .root k _ _ => k
  | .child k _ _ _ => k

/-- The method `key.IntID()`. -/
def Key.IntID : Key → Int
  | .root _ _ i => i
  | .child _ _ i _ => i

/-- The method `key.Parent()`. -/
def Key.Parent : Key → Option Key
  | .root _ _ _ => none
  | .child _ _ _ p => some p

def DINGER_KEY_KIND : String := "Dinger"

def CLIENT_KEY_KIND : String := "DingerClient"

/-! ## The identifier codec -/

/-- Membership in the character class `[0-9A-Fa-f]`. -/
def isHexChar (c : Char) : Bool :=
  ('0' ≤ c && c ≤ '9') || ('A' ≤ c && c ≤ 'F') || ('a' ≤ c && c ≤ 'f')

/-- Membership in the digit set `0123456789` that the verb `%d` accepts. -/
def isDecChar (c : Char) : Bool :=
  '0' ≤ c && c ≤ '9'

/-- The `validDingerId.MatchString` test for the pattern `^[0-9A-Fa-f]+$`:
the whole text is one or more characters of the class. -/
def validDingerId (idStr : String) : Bool :=
  !idStr.data.isEmpty && idStr.data.all isHexChar

/-- The value of a decimal digit character. -/
def decVal (c : Char) : Nat :=
  c.toNat - '0'.toNat

/-- The value of a run of decimal digits, most significant first. -/
def decValue (ds : List Char) : Nat :=
  ds.foldl (fun acc c => acc * 10 + decVal c) 0

/-- The characters the scanner of `fmt` counts as space: U+0009 to U+000D, U+0020,
U+0085, U+00A0, U+1680, U+2000 to U+200A, U+2028, U+2029, U+202F, U+205F and
U+3000. -/
def isSpace (c : Char) : Bool :=
  (0x09 ≤ c.toNat && c.toNat ≤ 0x0d) || c.toNat == 0x20 || c.toNat == 0x85 ||
    c.toNat == 0xa0 || c.toNat == 0x1680 || (0x2000 ≤ c.toNat && c.toNat ≤ 0x200a) ||
    c.toNat == 0x2028 || c.toNat == 0x2029 || c.toNat == 0x202f || c.toNat == 0x205f ||
    c.toNat == 0x3000

/-- The scanner's `SkipSpace`: leading space is dropped, except that a newline is an
error (the format `%d` holds no newline to match it). -/
def skipSpace : List Char → Except ScanError (List Char)
  | [] => .ok []
  | c :: cs =>
    if c = '\n' then .error .unexpectedNewline
    else if isSpace c then skipSpace cs
    else .ok (c :: cs)

/-- The scanner's `accept("+-")`: an optional sign is moved from the input to the
token.  The result is the token so far and the input left. -/
def acceptSign (cs : List Char) : List Char × List Char :=
  match cs with
  | [] => ([], [])
  | c :: rest => if c = '-' ∨ c = '+' then ([c], rest) else ([], c :: rest)

/-- The scanner's `scanNumber`: the longest run of decimal digits at the front of
the input, which must hold at least one. -/
def scanNumber (cs : List Char) : Except ScanError (List Char) :=
  match cs with
  | [] => .error .unexpectedEOF
  | c :: _ => if isDecChar c then .ok (cs.takeWhile isDecChar) else .error .expectedInteger

/-- The sign of a token and its digits. -/
def splitSign (tok : List Char) : Bool × List Char :=
  match tok with
  | [] => (false, [])
  | c :: rest =>
    if c = '-' then (true, rest)
    else if c = '+' then (false, rest)
    else (false, c :: rest)

/-- The conversion of the scanned token (sign and digits) to a signed 64-bit
integer (`strconv`): the value, or a range error naming the token when the
value does not fit `int64`. -/
def parseInt64 (tok : List Char) : Except ScanError Int :=
  let n := decValue (splitSign tok).2
  if (splitSign tok).1 then
    if n ≤ 2 ^ 63 then .ok (-(n : Int)) else .error (.outOfRange tok.asString)
  else
    if n < 2 ^ 63 then .ok (n : Int) else .error (.outOfRange tok.asString)

/-- The call `fmt.Sscanf(s, "%d", &id)` with `id` an `int64`: space is skipped, a
sign is accepted, the longest run of decimal digits is read, and the token is
converted.  Input left over after the number is not an error. -/
def sscanfInt64 (s : String) : Except ScanError Int :=
  match skipSpace s.data with
  | .error e => .error e
  | .ok cs =>
    match scanNumber (acceptSign cs).2 with
    | .error e => .error e
    | .ok digits => parseInt64 ((acceptSign cs).1 ++ digits)

/-- The call `fmt.Sprint(i)` for a signed integer: base 10, a minus sign when negative. -/
def sprintInt (i : Int) : String :=
  if i < 0 then "-" ++ Nat.repr (-i).toNat else Nat.repr i.toNat

/-- Parse a dinger ID into a datastore key. -/
def DingerIdToKey (idStr : String) : Except Error Key :=
  if !validDingerId idStr then
    .error (.invalidDingerId idStr)
  else
    match sscanfInt64 idStr with
    | .error err => .error (.parseDingerId err)
    | .ok id => .ok (NewKey DINGER_KEY_KIND "" id none)

/-- Return the string ID associated with the dinger key. -/
def KeyToDingerId (key : Key) : String :=
  sprintInt key.IntID

/-! ### The codec as the documentation describes it

The comment above `validDingerId` says that a dinger ID is a number,
hex-encoded.  The two definitions below follow those words; they are what the
code is compared with. -/

/-- The value of a hexadecimal digit character. -/
def hexVal (c : Char) : Nat :=
  if 'a' ≤ c ∧ c ≤ 'f' then c.toNat - 'a'.toNat + 10
  else if 'A' ≤ c ∧ c ≤ 'F' then c.toNat - 'A'.toNat + 10
  else c.toNat - '0'.toNat

/-- The number a string of hexadecimal digits denotes in base 16. -/
def hexValue (s : String) : Nat :=
  s.data.foldl (fun acc c => acc * 16 + hexVal c) 0

/-- The hexadecimal string representation of a number. -/
def hexRepr (n : Nat) : String :=
  (Nat.toDigits 16 n).asString

/-- A string in canonical decimal form: decimal digits only, at least one, and no
leading zero unless the string is the single digit zero. -/
def canonicalDecimal (s : String) : Prop :=
  s.data ≠ [] ∧ (∀ c ∈ s.data, isDecChar c = true) ∧ (s.data.head? = some '0' → s.data = ['0'])

/-! ## Records, datastore and collaborators -/

structure Dinger where
  Name : String
deriving DecidableEq, Repr

structure Client where
  Id : String
  Token : String
deriving DecidableEq, Repr

/-- The entities of one kind held by the datastore, each under its key. -/
abbrev Table (α : Type) := List (Key × α)

/-- The entity stored under a key, if any. -/
def Table.get {α : Type} (t : Table α) (k : Key) : Option α :=
  (t.find? (fun r => decide (r.1 = k))).map Prod.snd

/-- Removal of the entity stored under a key; removing an absent key changes nothing. -/
def Table.delete {α : Type} (t : Table α) (k : Key) : Table α :=
  t.filter (fun r => !decide (r.1 = k))

/-- Storing an entity under a key replaces what was stored under that key. -/
def Table.put {α : Type} (t : Table α) (k : Key) (v : α) : Table α :=
  t.delete k ++ [(k, v)]

/-- The contents of the datastore: the `Dinger` entities and the `DingerClient` entities. -/
structure Datastore where
  dingers : Table Dinger
  clients : Table Client
deriving DecidableEq, Repr

/-- What the program can observe and change outside itself: the datastore, the
channels created with `channel.Create`, the `channel.Send` calls made so far
(client id and message, in order), and the errors logged with `c.Errorf`. -/
structure World where
  store : Datastore
  channels : List String
  sent : List (String × String)
  logged : List Error
deriving DecidableEq, Repr

/-- The fields of an `http.URL` the program touches, and the host it leaves alone. -/
structure URL where
  Scheme : String
  Host : String
  Path : String
  RawQuery : String
  Fragment : String
deriving DecidableEq, Repr

/-- The behaviour of the collaborators during one request.  Each field is the
outcome the corresponding call has; the theorems quantify over all of them.

* `digest` is SHA-1 followed by URL-safe base 64;
* `randInt` is the outcome of `rand.Int(rand.Reader, 0x7fffffffffffffff)`;
* `channelCreate id` is the outcome of `channel.Create(c, id)`;
* `putErr` is the error `datastore.Put` returns, if it fails, and `allocID` the
  integer id the datastore assigns to an incomplete key;
* `nextErr n` is the error, other than `Done`, that the `n`-th call of the query
  iterator's `Next` returns, if it fails;
* `sendErr n id msg` is the error of `channel.Send(c, id, msg)` in the `n`-th
  iteration of the broadcast loop, if it fails;
* `deleteErr n key` is the error of `datastore.Delete(c, key)` in the `n`-th
  iteration, if it fails;
* `marshalErr` and `writeErr` are the errors of `json.Marshal` and of the
  response writer, if they fail;
* `urlString` is the method `String` of a URL. -/
structure Env where
  digest : String → String
  randInt : Except Error Nat
  channelCreate : String → Except Error String
  putErr : Option Error
  allocID : Int
  nextErr : Nat → Option Error
  sendErr : Nat → String → String → Option Error
  deleteErr : Nat → Key → Option Error
  marshalErr : Option Error
  writeErr : Option Error
  urlString : URL → String

/-- The function `datastore.NewIncompleteKey(kind)`. -/
def NewIncompleteKey (kind : String) : Key :=
  NewKey kind "" 0 none

/-- The method `key.StringID()`. -/
def Key.StringID : Key → String
  | .root _ s _ => s
  | .child _ s _ _ => s

/-- The method `key.Incomplete()`: neither a string id nor an integer id. -/
def Key.Incomplete (k : Key) : Bool :=
  decide (k.StringID = "") && decide (k.IntID = 0)

/-- The key with its integer id replaced. -/
def Key.withIntID : Key → Int → Key
  | .root k s _, i => .root k s i
  | .child k s _ p, i => .child k s i p

/-- The key under which `datastore.Put` stores an entity: the key given, or, for an
incomplete key, that key completed with the id the datastore assigns. -/
def putKey (env : Env) (key : Key) : Key :=
  if key.Incomplete then key.withIntID env.allocID else key

/-- The call `datastore.Put(c, key, dinger)`.  A failed call stores nothing. -/
def putDinger (env : Env) (key : Key) (d : Dinger) (w : World) :
    Except Error Key × World :=
  match env.putErr with
  | some err => (.error err, w)
  | none =>
    (.ok (putKey env key),
      { w with store := { w.store with dingers := w.store.dingers.put (putKey env key) d } })

/-- The call `datastore.Put(c, key, client)`.  A failed call stores nothing. -/
def putClient (env : Env) (key : Key) (cl : Client) (w : World) :
    Except Error Key × World :=
  match env.putErr with
  | some err => (.error err, w)
  | none =>
    (.ok (putKey env key),
      { w with store := { w.store with clients := w.store.clients.put (putKey env key) cl } })

/-- The key is `anc` or has `anc` among its ancestors. -/
def Key.hasAncestor (anc : Key) : Key → Bool
  | .root k s i => decide (Key.root k s i = anc)
  | .child k s i p => decide (Key.child k s i p = anc) || Key.hasAncestor anc p

/-- The rows of `datastore.NewQuery(CLIENT_KEY_KIND).Ancestor(key)`: the clients of a dinger. -/
def queryClients (store : Datastore) (key : Key) : Table Client :=
  store.clients.filter (fun r => decide (r.1.Kind = CLIENT_KEY_KIND) && Key.hasAncestor key r.1)

/-! ## Operations of `dinger.go` -/

/-- Make a new Dinger with the specified name and try to insert it in the data store.
Return the Dinger and the key associated with the new dinger, or the error. -/
def MakeDinger (env : Env) (name : String) (w : World) : Except Error (Dinger × Key) × World :=
  let dinger : Dinger := { Name := name }
  match putDinger env (NewIncompleteKey DINGER_KEY_KIND) dinger w with
  | (.error err, w1) => (.error err, w1)
  | (.ok key, w1) => (.ok (dinger, key), w1)

/-- Make a client of the specified dinger and return the id and token associated with
the new client. -/
def MakeClient (env : Env) (dingerKey : Key) (w : World) : Except Error Client × World :=
  let key := NewKey CLIENT_KEY_KIND "" 0 (some dingerKey)
  let hashed := KeyToDingerId dingerKey
  match env.randInt with
  | .error err => (.error err, w)
  | .ok randId =>
    let hashed := hashed ++ Nat.repr randId
    let id := env.digest hashed
    match env.channelCreate id with
    | .error err => (.error err, w)
    | .ok tok =>
      let w1 : World := { w with channels := w.channels ++ [id] }
      let client : Client := { Id := id, Token := tok }
      match putClient env key client w1 with
      | (.error err, w2) => (.error err, w2)
      | (.ok _, w2) => (.ok client, w2)

/-- The loop of `PostDing`.  `n` counts the iterations made so far and the list
holds the rows the iterator has not returned yet.  Each iteration calls `Next`:
an error other than `Done` is returned at once; `Done` (no row left) ends the
loop and `nil` is returned; otherwise the message is sent to the client of the
row, and when sending fails the row is deleted, a failure to delete being
logged. -/
def postLoop (env : Env) (message : String) : Nat → Table Client → World → Option Error × World
  | n, [], w =>
    match env.nextErr n with
    | some err => (some err, w)
    | none => (none, w)
  | n, (cKey, client) :: rest, w =>
    match env.nextErr n with
    | some err => (some err, w)
    | none =>
      let w1 : World := { w with sent := w.sent ++ [(client.Id, message)] }
      match env.sendErr n client.Id message with
      | none => postLoop env message (n + 1) rest w1
      | some _ =>
        match env.deleteErr n cKey with
        | none =>
          postLoop env message (n + 1) rest
            { w1 with store := { w1.store with clients := w1.store.clients.delete cKey } }
        | some err =>
          postLoop env message (n + 1) rest { w1 with logged := w1.logged ++ [err] }

/-- The message `PostDing` sends: the one passed, or a default if none was passed. -/
def effectiveMessage (message : String) : String :=
  if message.length = 0 then "Ding-A-Ling!" else message

/-- Send a message to all clients associated with the dinger.  The iterator runs over
the rows the query has when it is started. -/
def PostDing (env : Env) (key : Key) (message : String) (w : World) : Option Error × World :=
  postLoop env (effectiveMessage message) 0 (queryClients w.store key) w

/-! ## The handler for new dingers (`dingaling.go`, `utils.go`) -/

def DINGER_PREFIX : String := "/d/"

/-- The part of an `*http.Request` the handler reads: the URL and the form values. -/
structure Request where
  URL : URL
  FormValue : String → String

/-- The response built by `handleNewDinger`. -/
structure Response where
  Name : String
  URL : String
deriving DecidableEq, Repr

/-- The `http.ResponseWriter`: the content type set in the header and the value
whose JSON encoding has been written as the body, if any. -/
structure ResponseWriter where
  contentType : Option String
  body : Option Response
deriving DecidableEq, Repr

/-- Marshal v as a JSON object, set the Content-Type header and write the response. -/
def jsonResponse (env : Env) (rw : ResponseWriter) (v : Response) : Option Error × ResponseWriter :=
  let rw1 : ResponseWriter := { rw with contentType := some "text/javascript" }
  match env.marshalErr with
  | some err => (some err, rw1)
  | none =>
    match env.writeErr with
    | some err => (some err, rw1)
    | none => (none, { rw1 with body := some v })

/-- The URL which can be used to access the dinger, based on the request URL. -/
def dingerUrl (r : Request) (key : Key) : URL :=
  { r.URL with RawQuery := "", Fragment := "", Path := DINGER_PREFIX ++ KeyToDingerId key }

/-- A handler function for when we should create a new dinger. -/
def handleNewDinger (env : Env) (rw : ResponseWriter) (r : Request) (w : World) :
    Option Error × ResponseWriter × World :=
  let name := r.FormValue "name"
  let name := if name.length = 0 then "Untitled dinger" else name
  match MakeDinger env name w with
  | (.error err, w1) => (some err, rw, w1)
  | (.ok (_, key), w1) =>
    match jsonResponse env rw { Name := name, URL := env.urlString (dingerUrl r key) } with
    | (err, rw1) => (err, rw1, w1)

/-! ## Notions used to state the properties of the broadcast -/

/-- The rows the iterator returns before it ends or fails, iteration `n` onwards. -/
def enumeratedFrom (env : Env) : Nat → Table Client → Table Client
  | _, [] => []
  | n, r :: rest =>
    match env.nextErr n with
    | some _ => []
    | none => r :: enumeratedFrom env (n + 1) rest

/-- The rows the iterator returns during one `PostDing`. -/
def enumerated (env : Env) (rows : Table Client) : Table Client :=
  enumeratedFrom env 0 rows

/-- The enumeration fails: one of the calls of `Next` made returns an error other
than `Done`.  With `len` rows, calls `0` to `len` can be made. -/
def enumerationFails (env : Env) (len : Nat) : Prop :=
  ∃ j, j ≤ len ∧ env.nextErr j ≠ none

/-- The keys of the rows deleted by the loop, iteration `n` onwards: the rows
returned by the iterator for which sending fails and deleting succeeds. -/
def prunedFrom (env : Env) (message : String) : Nat → Table Client → List Key
  | _, [] => []
  | n, (cKey, client) :: rest =>
    match env.nextErr n with
    | some _ => []
    | none =>
      if (env.sendErr n client.Id message).isSome && (env.deleteErr n cKey).isNone then
        cKey :: prunedFrom env message (n + 1) rest
      else prunedFrom env message (n + 1) rest

/-- The errors logged by the loop, iteration `n` onwards: for each row returned by
the iterator for which sending fails and deleting fails too, the error of the
`Delete`, in order. -/
def loggedFrom (env : Env) (message : String) : Nat → Table Client → List Error
  | _, [] => []
  | n, (cKey, client) :: rest =>
    match env.nextErr n with
    | some _ => []
    | none =>
      match env.sendErr n client.Id message with
      | none => loggedFrom env message (n + 1) rest
      | some _ =>
        match env.deleteErr n cKey with
        | none => loggedFrom env message (n + 1) rest
        | some err => err :: loggedFrom env message (n + 1) rest

/-- The key `datastore.Put` gives a new dinger. -/
def newDingerKey (env : Env) : Key :=
  putKey env (NewIncompleteKey DINGER_KEY_KIND)

/-- The response `handleNewDinger` builds for a new dinger of the given name. -/
def newDingerResponse (env : Env) (r : Request) (name : String) : Response :=
  { Name := name, URL := env.urlString (dingerUrl r (newDingerKey env)) }

/-- The outcome of creating a dinger when the datastore accepts the `Put`: the
record stored under the new key has the given name; when `json.Marshal` and
the response writer succeed, the handler returns no error and the response
written carries the same name and the URL of the new dinger; and whenever the
handler returns no error, the response written is that one. -/
def createsDingerNamed (env : Env) (rw : ResponseWriter) (r : Request) (w : World)
    (name : String) : Prop :=
  ((handleNewDinger env rw r w).2.2.store.dingers.get (newDingerKey env) = some { Name := name }) ∧
    (env.marshalErr = none → env.writeErr = none →
      (handleNewDinger env rw r w).1 = none ∧
      (handleNewDinger env rw r w).2.1 =
        { contentType := some "text/javascript", body := some (newDingerResponse env r name) }) ∧
    ((handleNewDinger env rw r w).1 = none →
      (handleNewDinger env rw r w).2.1.body = some (newDingerResponse env r name))

/-! ## Concrete collaborators and worlds, for evaluating the definitions -/

/-- Collaborators that all succeed. -/
def envOk : Env where
  digest := fun s => "sha1:" ++ s
  randInt := .ok 42
  channelCreate := fun id => .ok ("token-" ++ id)
  putErr := none
  allocID := 1001
  nextErr := fun _ => none
  sendErr := fun _ _ _ => none
  deleteErr := fun _ _ => none
  marshalErr := none
  writeErr := none
  urlString := fun u => u.Scheme ++ "://" ++ u.Host ++ u.Path

/-- Collaborators for which sending fails for the client `"bob"` only. -/
def envBobGone : Env :=
  { envOk with sendErr := fun _ id _ => if id = "bob" then some (.external "no channel") else none }

/-- Collaborators for which every `channel.Send` and every `datastore.Delete` fails. -/
def envSendDeleteFail : Env :=
  { envOk with
    sendErr := fun _ _ _ => some (.external "send failed")
    deleteErr := fun _ _ => some (.external "delete failed") }

/-- Collaborators for which `channel.Create` fails. -/
def envCreateFail : Env :=
  { envOk with channelCreate := fun _ => .error (.external "no channel") }

def dingerSeven : Key := Key.root "Dinger" "" 7

def aliceKey : Key := Key.child "DingerClient" "" 1 dingerSeven

def bobKey : Key := Key.child "DingerClient" "" 2 dingerSeven

def alice : Client := { Id := "alice", Token := "ta" }

def bob : Client := { Id := "bob", Token := "tb" }

/-- A world with the dinger 7 and no client. -/
def worldEmpty : World where
  store := { dingers := [(dingerSeven, { Name := "Party" })], clients := [] }
  channels := []
  sent := []
  logged := []

/-- A world with the dinger 7 and its two clients, bob and alice. -/
def worldTwo : World :=
  { worldEmpty with
    store := { dingers := [(dingerSeven, { Name := "Party" })],
               clients := [(bobKey, bob), (aliceKey, alice)] } }

/-- A request for a new dinger carrying the given name. -/
def requestNamed (name : String) : Request where
  URL := { Scheme := "http", Host := "example.org", Path := "/d/", RawQuery := "name=x",
           Fragment := "" }
  FormValue := fun field => if field = "name" then name else ""

def writerEmpty : ResponseWriter := { contentType := none, body := none }

/-! ## Decimal rendering and reading -/

theorem digitChar_dec (d : Nat) (h : d < 10) :
    isDecChar (Nat.digitChar d) = true ∧ decVal (Nat.digitChar d) = d := by
  interval_cases d <;> exact ⟨by decide, by decide⟩

theorem isDecChar_cases (c : Char) (h : isDecChar c = true) :
    c = Nat.digitChar (decVal c) ∧ decVal c < 10 := by
  have hc : c = Char.ofNat c.toNat := (Char.ofNat_toNat c).symm
  have hb : 48 ≤ c.toNat ∧ c.toNat ≤ 57 := by
    simp only [isDecChar, Bool.and_eq_true, decide_eq_true_eq] at h
    exact ⟨h.1, h.2⟩
  obtain ⟨h1, h2⟩ := hb
  generalize c.toNat = n at hc h1 h2
  subst hc
  interval_cases n <;> exact ⟨by decide, by decide⟩

theorem isDecChar_isHexChar (c : Char) (h : isDecChar c = true) : isHexChar c = true := by
  simp only [isDecChar] at h
  simp [isHexChar, h]

/-- With enough fuel the digit loop of the core library yields the digits of the
number in front of the accumulator. -/
theorem toDigitsCore_eq (fuel : Nat) : ∀ (n : Nat) (acc : List Char), n < fuel →
    Nat.toDigitsCore 10 fuel n acc = Nat.toDigits 10 n ++ acc := by
  induction fuel using Nat.strong_induction_on with
  | _ fuel ih =>
    intro n acc hn
    cases fuel with
    | zero => omega
    | succ f =>
      by_cases hz : n / 10 = 0
      · simp [Nat.toDigits, Nat.toDigitsCore, hz]
      · have e1 : Nat.toDigitsCore 10 (f + 1) n acc
            = Nat.toDigitsCore 10 f (n / 10) (Nat.digitChar (n % 10) :: acc) := by
          simp [Nat.toDigitsCore, hz]
        have e2 : Nat.toDigits 10 n
            = Nat.toDigitsCore 10 n (n / 10) [Nat.digitChar (n % 10)] := by
          simp [Nat.toDigits, Nat.toDigitsCore, hz]
        rw [e1, e2, ih f (by omega) (n / 10) _ (by omega), ih n (by omega) (n / 10) _ (by omega)]
        simp

theorem toDigits_small (n : Nat) (h : n < 10) : Nat.toDigits 10 n = [Nat.digitChar n] := by
  have hz : n / 10 = 0 := by omega
  have hm : n % 10 = n := by omega
  simp [Nat.toDigits, Nat.toDigitsCore, hz, hm]

theorem toDigits_large (n : Nat) (h : 10 ≤ n) :
    Nat.toDigits 10 n = Nat.toDigits 10 (n / 10) ++ [Nat.digitChar (n % 10)] := by
  have hz : ¬ n / 10 = 0 := by omega
  have e2 : Nat.toDigits 10 n
      = Nat.toDigitsCore 10 n (n / 10) [Nat.digitChar (n % 10)] := by
    simp [Nat.toDigits, Nat.toDigitsCore, hz]
  rw [e2, toDigitsCore_eq n (n / 10) _ (by omega)]

theorem decValue_snoc (ds : List Char) (c : Char) :
    decValue (ds ++ [c]) = decValue ds * 10 + decVal c := by
  simp [decValue, List.foldl_append]

theorem decValue_zeros (n : Nat) (ds : List Char) :
    decValue (List.replicate n '0' ++ ds) = decValue ds := by
  have step : ∀ xs : List Char, decValue ('0' :: xs) = decValue xs := by
    intro xs
    simp [decValue, decVal]
  induction n with
  | zero => simp
  | succ n ih => rw [List.replicate_succ, List.cons_append, step, ih]

/-- The decimal rendering of a number: at least one character, decimal digits
only, and its value is the number. -/
theorem toDigits_spec (n : Nat) :
    Nat.toDigits 10 n ≠ [] ∧ (∀ c ∈ Nat.toDigits 10 n, isDecChar c = true) ∧
      decValue (Nat.toDigits 10 n) = n := by
  induction n using Nat.strong_induction_on with
  | _ n ih =>
    by_cases h : n < 10
    · rw [toDigits_small n h]
      refine ⟨by simp, ?_, ?_⟩
      · intro c hc
        rw [List.mem_singleton] at hc
        rw [hc]
        exact (digitChar_dec n h).1
      · simp [decValue, (digitChar_dec n h).2]
    · rw [toDigits_large n (by omega)]
      obtain ⟨_, h2, h3⟩ := ih (n / 10) (by omega)
      have hd := digitChar_dec (n % 10) (Nat.mod_lt _ (by omega))
      refine ⟨by simp, ?_, ?_⟩
      · intro c hc
        rw [List.mem_append, List.mem_singleton] at hc
        rcases hc with hc | hc
        · exact h2 c hc
        · rw [hc]; exact hd.1
      · rw [decValue_snoc, h3, hd.2]
        omega

/-! ## The scanner on identifiers that pass the pattern -/

theorem takeWhile_all_dec (ds : List Char) (h : ∀ c ∈ ds, isDecChar c = true) :
    ds.takeWhile isDecChar = ds := by
  induction ds with
  | nil => rfl
  | cons c cs ih =>
    rw [List.takeWhile_cons, h c (List.mem_cons_self _ _)]
    simp only [if_true]
    rw [ih (fun x hx => h x (List.mem_cons_of_mem _ hx))]

theorem isHexChar_bounds (c : Char) (h : isHexChar c = true) :
    48 ≤ c.toNat ∧ c.toNat ≤ 102 := by
  have h0 : ∀ a b : Char, a ≤ b → a.toNat ≤ b.toNat := fun _ _ hab => hab
  simp only [isHexChar, Bool.or_eq_true, Bool.and_eq_true, decide_eq_true_eq] at h
  rcases h with (⟨h1, h2⟩ | ⟨h1, h2⟩) | ⟨h1, h2⟩
  · have a1 := h0 _ _ h1
    have a2 := h0 _ _ h2
    have e1 : ('0' : Char).toNat = 48 := rfl
    have e2 : ('9' : Char).toNat = 57 := rfl
    omega
  · have a1 := h0 _ _ h1
    have a2 := h0 _ _ h2
    have e1 : ('A' : Char).toNat = 65 := rfl
    have e2 : ('F' : Char).toNat = 70 := rfl
    omega
  · have a1 := h0 _ _ h1
    have a2 := h0 _ _ h2
    have e1 : ('a' : Char).toNat = 97 := rfl
    have e2 : ('f' : Char).toNat = 102 := rfl
    omega

theorem isHexChar_not_special (c : Char) (h : isHexChar c = true) :
    c ≠ '\n' ∧ isSpace c = false ∧ c ≠ '-' ∧ c ≠ '+' := by
  refine ⟨?_, ?_, ?_, ?_⟩
  · rintro rfl; revert h; decide
  · obtain ⟨h1, h2⟩ := isHexChar_bounds c h
    cases hb : isSpace c with
    | false => rfl
    | true =>
      simp only [isSpace, Bool.or_eq_true, Bool.and_eq_true, decide_eq_true_eq, beq_iff_eq] at hb
      omega
  · rintro rfl; revert h; decide
  · rintro rfl; revert h; decide

/-- The conversion of a token that starts with a hexadecimal digit: it has no sign,
and the digits are converted as a non-negative number. -/
theorem parseInt64_unsigned (tok : List Char) (c : Char) (rest : List Char)
    (htok : tok = c :: rest) (hc : isHexChar c = true) :
    parseInt64 tok =
      if decValue tok < 2 ^ 63 then .ok (decValue tok : Int)
      else .error (.outOfRange tok.asString) := by
  obtain ⟨_, _, h3, h4⟩ := isHexChar_not_special c hc
  have hsplit : splitSign tok = (false, tok) := by
    rw [htok]
    simp [splitSign, h3, h4]
  simp only [parseInt64, hsplit, Bool.false_eq_true, if_false]

/-- On a string whose first character is a hexadecimal digit the scanner skips
nothing and reads no sign: it reads the leading run of decimal digits. -/
theorem sscanfInt64_hex_head (s : String) (c : Char) (rest : List Char)
    (hs : s.data = c :: rest) (hc : isHexChar c = true) :
    sscanfInt64 s =
      if isDecChar c then parseInt64 ((c :: rest).takeWhile isDecChar)
      else .error .expectedInteger := by
  obtain ⟨h1, h2, h3, h4⟩ := isHexChar_not_special c hc
  cases hd : isDecChar c <;>
    simp [sscanfInt64, hs, skipSpace, h1, h2, acceptSign, h3, h4, scanNumber, hd]

theorem validDingerId_iff (s : String) :
    validDingerId s = true ↔ s.data ≠ [] ∧ ∀ c ∈ s.data, isHexChar c = true := by
  simp [validDingerId, List.isEmpty_iff]

/-- The identifier of a non-negative integer: what `DingerIdToKey` does with the
decimal rendering of a number. -/
theorem DingerIdToKey_repr (n : Nat) (h : n < 2 ^ 63) :
    DingerIdToKey (Nat.repr n) = .ok (Key.root DINGER_KEY_KIND "" (n : Int)) := by
  obtain ⟨hne, hdec, hval⟩ := toDigits_spec n
  have hdata : (Nat.repr n).data = Nat.toDigits 10 n := rfl
  have hvalid : validDingerId (Nat.repr n) = true := by
    rw [validDingerId_iff, hdata]
    exact ⟨hne, fun c hc => isDecChar_isHexChar c (hdec c hc)⟩
  obtain ⟨c, rest, hcr⟩ := List.exists_cons_of_ne_nil hne
  have hc : isDecChar c = true := hdec c (by rw [hcr]; exact List.mem_cons_self _ _)
  have hscan := sscanfInt64_hex_head (Nat.repr n) c rest (by rw [hdata, hcr])
    (isDecChar_isHexChar c hc)
  rw [hc, ← hcr, takeWhile_all_dec _ hdec] at hscan
  simp only [if_true] at hscan
  rw [parseInt64_unsigned _ c rest hcr (isDecChar_isHexChar c hc), hval, if_pos h] at hscan
  simp only [DingerIdToKey, hvalid, hscan, Bool.not_true, Bool.false_eq_true, if_false, NewKey]

theorem sprintInt_natCast (n : Nat) : sprintInt (n : Int) = Nat.repr n := by
  have h : ¬ ((n : Int) < 0) := by omega
  simp [sprintInt, h]

/-- A run of decimal digits that does not start with a zero is the rendering of
its value, and its value is positive. -/
theorem toDigits_decValue_pos (ds : List Char) :
    ds ≠ [] → (∀ c ∈ ds, isDecChar c = true) → ds.head? ≠ some '0' →
      1 ≤ decValue ds ∧ Nat.toDigits 10 (decValue ds) = ds := by
  induction ds using List.reverseRecOn with
  | nil => intro h; exact absurd rfl h
  | append_singleton l a ih =>
    intro _ hdec hhead
    obtain ⟨ha, hlt⟩ := isDecChar_cases a (hdec a (by simp))
    by_cases hl : l = []
    · subst hl
      have hv : decValue [a] = decVal a := by simp [decValue]
      have hpos : decVal a ≠ 0 := by
        intro h0
        rw [h0] at ha
        exact hhead (by rw [ha]; rfl)
      simp only [List.nil_append]
      rw [hv, toDigits_small _ hlt, ← ha]
      exact ⟨by omega, rfl⟩
    · have hh : l.head? ≠ some '0' := by
        obtain ⟨x, xs, hx⟩ := List.exists_cons_of_ne_nil hl
        rw [hx] at hhead ⊢
        simpa using hhead
      obtain ⟨h1, h2⟩ := ih hl (fun c hc => hdec c (by simp [hc])) hh
      rw [decValue_snoc]
      refine ⟨by omega, ?_⟩
      rw [toDigits_large _ (by omega)]
      have e1 : (decValue l * 10 + decVal a) / 10 = decValue l := by omega
      have e2 : (decValue l * 10 + decVal a) % 10 = decVal a := by omega
      rw [e1, e2, h2, ← ha]

theorem toDigits_decValue_canonical (s : String) (h : canonicalDecimal s) :
    Nat.toDigits 10 (decValue s.data) = s.data := by
  obtain ⟨hne, hdec, hzero⟩ := h
  by_cases hz : s.data.head? = some '0'
  · rw [hzero hz]
    rfl
  · exact (toDigits_decValue_pos s.data hne hdec hz).2

/-- What `DingerIdToKey` returns on a string of decimal digits. -/
theorem DingerIdToKey_decimal (s : String) (hne : s.data ≠ [])
    (hdec : ∀ c ∈ s.data, isDecChar c = true) :
    DingerIdToKey s =
      if decValue s.data < 2 ^ 63 then .ok (Key.root DINGER_KEY_KIND "" (decValue s.data : Int))
      else .error (.parseDingerId (.outOfRange s.data.asString)) := by
  have hvalid : validDingerId s = true := by
    rw [validDingerId_iff]
    exact ⟨hne, fun c hc => isDecChar_isHexChar c (hdec c hc)⟩
  obtain ⟨c, rest, hcr⟩ := List.exists_cons_of_ne_nil hne
  have hc : isDecChar c = true := hdec c (by rw [hcr]; exact List.mem_cons_self _ _)
  have hscan := sscanfInt64_hex_head s c rest hcr (isDecChar_isHexChar c hc)
  rw [hc, ← hcr, takeWhile_all_dec _ hdec] at hscan
  simp only [if_true] at hscan
  rw [parseInt64_unsigned _ c rest hcr (isDecChar_isHexChar c hc)] at hscan
  by_cases hr : decValue s.data < 2 ^ 63 <;>
    simp only [DingerIdToKey, hvalid, hscan, hr, NewKey, Bool.not_true,
      Bool.false_eq_true, if_false, if_true]

/-! ## Properties of the identifier codec -/

/-- C1. Round trip of the identifier codec: for every key whose integer id `x` is a
non-negative 64-bit integer, `DingerIdToKey (KeyToDingerId key)` succeeds and
returns a key of kind `"Dinger"` whose integer id is exactly `x`. -/
theorem DingerIdToKey_KeyToDingerId (key : Key) (h0 : 0 ≤ key.IntID) (h1 : key.IntID < 2 ^ 63) :
    DingerIdToKey (KeyToDingerId key) = .ok (NewKey DINGER_KEY_KIND "" key.IntID none) ∧
      (NewKey DINGER_KEY_KIND "" key.IntID none).Kind = "Dinger" ∧
      (NewKey DINGER_KEY_KIND "" key.IntID none).IntID = key.IntID := by
  refine ⟨?_, rfl, rfl⟩
  obtain ⟨n, hn⟩ := Int.eq_ofNat_of_zero_le h0
  have hlt : n < 2 ^ 63 := by
    rw [hn] at h1
    exact_mod_cast h1
  rw [KeyToDingerId, hn, sprintInt_natCast, DingerIdToKey_repr n hlt]
  rfl

theorem DingerIdToKey_KeyToDingerId_witness :
    DingerIdToKey (KeyToDingerId (Key.child "DingerClient" "" 255 (Key.root "Dinger" "" 7)))
        = .ok (NewKey DINGER_KEY_KIND "" 255 none) ∧
      (NewKey DINGER_KEY_KIND "" 255 none).Kind = "Dinger" ∧
      (NewKey DINGER_KEY_KIND "" 255 none).IntID = 255 :=
  DingerIdToKey_KeyToDingerId (Key.child "DingerClient" "" 255 (Key.root "Dinger" "" 7))
    (by decide) (by decide)

/-- C2. The external form of the code is decimal, not hexadecimal: the id 255 is
rendered as `"255"` where its hexadecimal representation is `"ff"`, and the
string `"ff"`, which passes the pattern and denotes 255 in base 16, is refused
by the numeric parsing. -/
theorem KeyToDingerId_decimal_at_255 :
    KeyToDingerId (Key.root "Dinger" "" 255) = "255" ∧ hexRepr 255 = "ff" ∧
      validDingerId "ff" = true ∧ hexValue "ff" = 255 ∧
      DingerIdToKey "ff" = .error (.parseDingerId .expectedInteger) := by
  decide

/-- C3. `DingerIdToKey` rejects malformed identifiers up front: for every string that
is empty or holds a character outside `[0-9A-Fa-f]`, it returns no key and the
error "Invalid dinger id", whatever the numeric parsing does with the string. -/
theorem DingerIdToKey_rejects_malformed (idStr : String)
    (h : idStr.data = [] ∨ ∃ c ∈ idStr.data, isHexChar c = false) :
    DingerIdToKey idStr = .error (.invalidDingerId idStr) := by
  have hv : validDingerId idStr = false := by
    cases hb : validDingerId idStr with
    | false => rfl
    | true =>
      rw [validDingerId_iff] at hb
      rcases h with h | ⟨c, hc, hx⟩
      · exact absurd h hb.1
      · rw [hb.2 c hc] at hx
        exact absurd hx (by decide)
  simp [DingerIdToKey, hv]

theorem DingerIdToKey_rejects_malformed_witness :
    sscanfInt64 "-4" = .ok (-4) ∧ DingerIdToKey "-4" = .error (.invalidDingerId "-4") :=
  ⟨by decide, DingerIdToKey_rejects_malformed "-4" (Or.inr ⟨'-', by decide, by decide⟩)⟩

/-- C4. A string of hexadecimal digits whose value in base 16 is `2 ^ 63`, one more
than the largest identifier, is accepted: the code reads it in base 10. -/
theorem DingerIdToKey_accepts_hex_overflow :
    validDingerId "8000000000000000" = true ∧ hexValue "8000000000000000" = 2 ^ 63 ∧
      DingerIdToKey "8000000000000000" = .ok (Key.root "Dinger" "" 8000000000000000) := by
  decide

/-- C10, as stated, fails: `"007"` is accepted, the key returned has the external
form `"7"`, and `"7"` and `"007"` address the same dinger. -/
theorem DingerIdToKey_leading_zeros :
    DingerIdToKey "007" = .ok (Key.root "Dinger" "" 7) ∧
      KeyToDingerId (Key.root "Dinger" "" 7) ≠ "007" ∧
      DingerIdToKey "7" = DingerIdToKey "007" ∧ "7" ≠ "007" := by
  decide

/-- C10, amended. On strings in canonical decimal form (decimal digits, no leading
zero unless the string is `"0"`) the external form is canonical: when
`DingerIdToKey` succeeds on such a string `s`, `KeyToDingerId` of the key
returned is `s`, so two distinct such strings never yield the same key.
Leading zeros are not significant: `s` with any number of zeros in front
yields the same key as `s`. -/
theorem DingerIdToKey_canonical (s : String) (hs : canonicalDecimal s) :
    (∀ key, DingerIdToKey s = .ok key → KeyToDingerId key = s) ∧
      (∀ t key, canonicalDecimal t → DingerIdToKey s = .ok key → DingerIdToKey t = .ok key →
        s = t) ∧
      (∀ n key, DingerIdToKey s = .ok key →
        DingerIdToKey (String.mk (List.replicate n '0' ++ s.data)) = .ok key) := by
  have key_form : ∀ (u : String), canonicalDecimal u → ∀ key, DingerIdToKey u = .ok key →
      KeyToDingerId key = u := by
    intro u hu key hk
    rw [DingerIdToKey_decimal u hu.1 hu.2.1] at hk
    by_cases hr : decValue u.data < 2 ^ 63
    · rw [if_pos hr] at hk
      have hkey : key = Key.root DINGER_KEY_KIND "" (decValue u.data : Int) :=
        (Except.ok.inj hk).symm
      rw [hkey]
      show sprintInt (decValue u.data : Int) = u
      rw [sprintInt_natCast]
      show (Nat.toDigits 10 (decValue u.data)).asString = u
      rw [toDigits_decValue_canonical u hu]
      cases u
      rfl
    · rw [if_neg hr] at hk
      exact Except.noConfusion hk
  refine ⟨key_form s hs, ?_, ?_⟩
  · intro t key ht h1 h2
    rw [← key_form s hs key h1, ← key_form t ht key h2]
  · intro n key hk
    have hne : (String.mk (List.replicate n '0' ++ s.data)).data ≠ [] := by
      show List.replicate n '0' ++ s.data ≠ []
      intro h
      exact hs.1 (List.append_eq_nil.mp h).2
    have hdec : ∀ c ∈ (String.mk (List.replicate n '0' ++ s.data)).data, isDecChar c = true := by
      intro c hc
      rcases List.mem_append.mp hc with h | h
      · rw [(List.mem_replicate.mp h).2]
        decide
      · exact hs.2.1 c h
    have hval : decValue (String.mk (List.replicate n '0' ++ s.data)).data = decValue s.data :=
      decValue_zeros n s.data
    rw [DingerIdToKey_decimal s hs.1 hs.2.1] at hk
    rw [DingerIdToKey_decimal _ hne hdec, hval]
    by_cases hr : decValue s.data < 2 ^ 63
    · rw [if_pos hr] at hk ⊢
      exact hk
    · rw [if_neg hr] at hk
      exact Except.noConfusion hk

theorem DingerIdToKey_canonical_witness :
    canonicalDecimal "12" ∧ DingerIdToKey "12" = .ok (Key.root "Dinger" "" 12) ∧
      KeyToDingerId (Key.root "Dinger" "" 12) = "12" ∧
      DingerIdToKey (String.mk (List.replicate 3 '0' ++ "12".data))
        = .ok (Key.root "Dinger" "" 12) :=
  ⟨⟨by decide, by decide, by decide⟩, by decide,
    (DingerIdToKey_canonical "12" ⟨by decide, by decide, by decide⟩).1
      (Key.root "Dinger" "" 12) (by decide),
    (DingerIdToKey_canonical "12" ⟨by decide, by decide, by decide⟩).2.2 3
      (Key.root "Dinger" "" 12) (by decide)⟩

/-! ## The broadcast loop -/

theorem postLoop_nil (env : Env) (m : String) (n : Nat) (w : World) :
    postLoop env m n [] w = (env.nextErr n, w) := by
  rw [postLoop]
  cases env.nextErr n <;> rfl

/-- The send calls made by the loop: one per row returned by the iterator, in
order, with the client id of the row and the message. -/
theorem postLoop_sent (env : Env) (m : String) (rows : Table Client) :
    ∀ (n : Nat) (w : World), (postLoop env m n rows w).2.sent
      = w.sent ++ (enumeratedFrom env n rows).map (fun r => (r.2.Id, m)) := by
  induction rows with
  | nil =>
    intro n w
    rw [postLoop_nil]
    simp [enumeratedFrom]
  | cons r rest ih =>
    intro n w
    obtain ⟨k, c⟩ := r
    rw [postLoop, enumeratedFrom]
    cases hn : env.nextErr n with
    | some e => simp
    | none =>
      cases hs : env.sendErr n c.Id m with
      | none => simp [hs, ih]
      | some e =>
        cases hd : env.deleteErr n k with
        | none => simp [hs, hd, ih]
        | some e2 => simp [hs, hd, ih]

/-- The datastore after the loop: the dingers are untouched, and the clients are
those present before whose key has not been deleted. -/
theorem postLoop_store (env : Env) (m : String) (rows : Table Client) :
    ∀ (n : Nat) (w : World),
      (postLoop env m n rows w).2.store.dingers = w.store.dingers ∧
      ∀ r, r ∈ (postLoop env m n rows w).2.store.clients ↔
        r ∈ w.store.clients ∧ r.1 ∉ prunedFrom env m n rows := by
  induction rows with
  | nil =>
    intro n w
    rw [postLoop_nil]
    simp [prunedFrom]
  | cons r rest ih =>
    intro n w
    obtain ⟨k, c⟩ := r
    rw [postLoop, prunedFrom]
    cases hn : env.nextErr n with
    | some e => simp
    | none =>
      cases hs : env.sendErr n c.Id m with
      | none =>
        simp only [hs, Option.isSome_none, Bool.false_and, Bool.false_eq_true, if_false]
        exact ih (n + 1) _
      | some e =>
        cases hd : env.deleteErr n k with
        | none =>
          simp only [hs, hd, Option.isSome_some, Option.isNone_none, Bool.and_self, if_true]
          obtain ⟨h1, h2⟩ := ih (n + 1)
            { store := { dingers := w.store.dingers, clients := w.store.clients.delete k },
              channels := w.channels, sent := w.sent ++ [(c.Id, m)], logged := w.logged }
          refine ⟨h1, ?_⟩
          intro r
          rw [h2 r]
          simp only [Table.delete, List.mem_filter, List.mem_cons, not_or, Bool.not_eq_true,
            Bool.not_eq_eq_eq_not, Bool.not_false, decide_eq_false_iff_not, Bool.not_true]
          tauto
        | some e2 =>
          simp only [hs, hd, Option.isSome_some, Option.isNone_some, Bool.and_false,
            Bool.false_eq_true, if_false]
          exact ih (n + 1) _

/-- The error returned by the loop: none exactly when no call of `Next` fails. -/
theorem postLoop_err (env : Env) (m : String) (rows : Table Client) :
    ∀ (n : Nat) (w : World), (postLoop env m n rows w).1 = none ↔
      ∀ j, j ≤ rows.length → env.nextErr (n + j) = none := by
  induction rows with
  | nil =>
    intro n w
    rw [postLoop_nil]
    simp
  | cons r rest ih =>
    intro n w
    obtain ⟨k, c⟩ := r
    have shift : (∀ j, j ≤ rest.length → env.nextErr (n + 1 + j) = none) ↔
        ∀ j, 1 ≤ j → j ≤ rest.length + 1 → env.nextErr (n + j) = none := by
      constructor
      · intro h j h1 h2
        obtain ⟨i, rfl⟩ : ∃ i, j = i + 1 := ⟨j - 1, by omega⟩
        have := h i (by omega)
        rwa [show n + 1 + i = n + (i + 1) by omega] at this
      · intro h j hj
        have := h (j + 1) (by omega) (by omega)
        rwa [show n + (j + 1) = n + 1 + j by omega] at this
    have split : (∀ j, j ≤ (((k, c) :: rest) : Table Client).length → env.nextErr (n + j) = none) ↔
        env.nextErr n = none ∧ ∀ j, j ≤ rest.length → env.nextErr (n + 1 + j) = none := by
      rw [shift]
      constructor
      · intro h
        exact ⟨by simpa using h 0 (by simp), fun j h1 h2 => h j (by simpa using h2)⟩
      · rintro ⟨h0, h⟩ j hj
        by_cases hz : j = 0
        · subst hz; simpa using h0
        · exact h j (by omega) (by simpa using hj)
    rw [split, postLoop]
    cases hn : env.nextErr n with
    | some e => simp
    | none =>
      cases hs : env.sendErr n c.Id m with
      | none => simpa [hs] using ih (n + 1) _
      | some e =>
        cases hd : env.deleteErr n k with
        | none => simpa [hs, hd] using ih (n + 1) _
        | some e2 => simpa [hs, hd] using ih (n + 1) _

/-- The keys deleted by the loop are the keys of the rows that the iterator
returns, for which sending fails and deleting succeeds. -/
theorem mem_prunedFrom (env : Env) (m : String) (key : Key) (rows : Table Client) :
    ∀ (n : Nat), key ∈ prunedFrom env m n rows ↔
      ∃ i c, rows[i]? = some (key, c) ∧ (∀ j, j ≤ i → env.nextErr (n + j) = none) ∧
        env.sendErr (n + i) c.Id m ≠ none ∧ env.deleteErr (n + i) key = none := by
  induction rows with
  | nil =>
    intro n
    simp [prunedFrom]
  | cons r rest ih =>
    intro n
    obtain ⟨k, c⟩ := r
    have tail_iff : key ∈ prunedFrom env m (n + 1) rest ↔
        ∃ i c2, ((k, c) :: rest)[i + 1]? = some (key, c2) ∧
          (∀ j, j ≤ i → env.nextErr (n + 1 + j) = none) ∧
          env.sendErr (n + 1 + i) c2.Id m ≠ none ∧ env.deleteErr (n + 1 + i) key = none := by
      rw [ih (n + 1)]
      simp only [List.getElem?_cons_succ]
    rw [prunedFrom]
    constructor
    · intro h
      cases hn : env.nextErr n with
      | some e => simp [hn] at h
      | none =>
        simp only [hn] at h
        have from_tail : key ∈ prunedFrom env m (n + 1) rest →
            ∃ i c2, ((k, c) :: rest)[i]? = some (key, c2) ∧
              (∀ j, j ≤ i → env.nextErr (n + j) = none) ∧
              env.sendErr (n + i) c2.Id m ≠ none ∧ env.deleteErr (n + i) key = none := by
          intro ht
          obtain ⟨i, c2, h1, h2, h3, h4⟩ := tail_iff.mp ht
          refine ⟨i + 1, c2, h1, ?_, ?_, ?_⟩
          · intro j hj
            by_cases hz : j = 0
            · subst hz; simpa using hn
            · have := h2 (j - 1) (by omega)
              rwa [show n + 1 + (j - 1) = n + j by omega] at this
          · rwa [show n + (i + 1) = n + 1 + i by omega]
          · rwa [show n + (i + 1) = n + 1 + i by omega]
        by_cases hcond : ((env.sendErr n c.Id m).isSome && (env.deleteErr n k).isNone) = true
        · rw [if_pos hcond, List.mem_cons] at h
          rcases h with h | h
          · subst h
            simp only [Bool.and_eq_true, Option.isSome_iff_ne_none, Option.isNone_iff_eq_none]
              at hcond
            refine ⟨0, c, by simp, ?_, by simpa using hcond.1, by simpa using hcond.2⟩
            intro j hj
            have : j = 0 := by omega
            subst this
            simpa using hn
          · exact from_tail h
        · rw [if_neg hcond] at h
          exact from_tail h
    · rintro ⟨i, c2, h1, h2, h3, h4⟩
      have hn : env.nextErr n = none := by simpa using h2 0 (by omega)
      simp only [hn]
      cases i with
      | zero =>
        simp only [List.getElem?_cons_zero, Option.some.injEq, Prod.mk.injEq] at h1
        obtain ⟨hk, hc⟩ := h1
        subst hk hc
        simp only [Nat.add_zero] at h3 h4
        have hcond : ((env.sendErr n c.Id m).isSome && (env.deleteErr n k).isNone) = true := by
          simp [Option.isSome_iff_ne_none, h3, h4]
        rw [if_pos hcond]
        exact List.mem_cons_self _ _
      | succ i =>
        have ht : key ∈ prunedFrom env m (n + 1) rest := by
          refine tail_iff.mpr ⟨i, c2, h1, ?_, ?_, ?_⟩
          · intro j hj
            have := h2 (j + 1) (by omega)
            rwa [show n + (j + 1) = n + 1 + j by omega] at this
          · rwa [show n + 1 + i = n + (i + 1) by omega]
          · rwa [show n + 1 + i = n + (i + 1) by omega]
        split
        · exact List.mem_cons_of_mem _ ht
        · exact ht

/-- The errors logged by the loop: those logged before, followed by the errors of
the failed deletions, in order. -/
theorem postLoop_logged (env : Env) (m : String) (rows : Table Client) :
    ∀ (n : Nat) (w : World), (postLoop env m n rows w).2.logged
      = w.logged ++ loggedFrom env m n rows := by
  induction rows with
  | nil =>
    intro n w
    rw [postLoop_nil]
    simp [loggedFrom]
  | cons r rest ih =>
    intro n w
    obtain ⟨k, c⟩ := r
    rw [postLoop, loggedFrom]
    cases hn : env.nextErr n with
    | some e => simp
    | none =>
      cases hs : env.sendErr n c.Id m with
      | none => simp [hs, ih]
      | some e =>
        cases hd : env.deleteErr n k with
        | none => simp [hs, hd, ih]
        | some e2 => simp [hs, hd, ih]

/-- The error of a failed deletion is among the errors logged. -/
theorem mem_loggedFrom (env : Env) (m : String) (rows : Table Client) :
    ∀ (n i : Nat) (key : Key) (c : Client) (err : Error), rows[i]? = some (key, c) →
      (∀ j, j ≤ i → env.nextErr (n + j) = none) → env.sendErr (n + i) c.Id m ≠ none →
      env.deleteErr (n + i) key = some err → err ∈ loggedFrom env m n rows := by
  induction rows with
  | nil =>
    intro n i key c err h
    simp at h
  | cons r rest ih =>
    intro n i key c err h1 h2 h3 h4
    obtain ⟨k, c0⟩ := r
    have hn : env.nextErr n = none := by simpa using h2 0 (by omega)
    rw [loggedFrom]
    simp only [hn]
    cases i with
    | zero =>
      simp only [List.getElem?_cons_zero, Option.some.injEq, Prod.mk.injEq] at h1
      obtain ⟨hk, hc⟩ := h1
      subst hk hc
      simp only [Nat.add_zero] at h3 h4
      cases hs : env.sendErr n c0.Id m with
      | none => exact absurd hs h3
      | some e =>
        simp only [h4]
        exact List.mem_cons_self _ _
    | succ i =>
      have ht : err ∈ loggedFrom env m (n + 1) rest := by
        refine ih (n + 1) i key c err (by simpa using h1) ?_ ?_ ?_
        · intro j hj
          have := h2 (j + 1) (by omega)
          rwa [show n + (j + 1) = n + 1 + j by omega] at this
        · rwa [show n + 1 + i = n + (i + 1) by omega]
        · rwa [show n + 1 + i = n + (i + 1) by omega]
      cases hs : env.sendErr n c0.Id m with
      | none => exact ht
      | some e =>
        cases hd : env.deleteErr n k with
        | none => exact ht
        | some e2 => exact List.mem_cons_of_mem _ ht

/-- With distinct keys, a key stands in one row only. -/
theorem row_index_unique (rows : Table Client) (hnd : (rows.map Prod.fst).Nodup)
    {i j : Nat} {k : Key} {c1 c2 : Client}
    (h1 : rows[i]? = some (k, c1)) (h2 : rows[j]? = some (k, c2)) : i = j ∧ c1 = c2 := by
  have hlen : i < (rows.map Prod.fst).length := by
    rw [List.length_map]
    exact (List.getElem?_eq_some_iff.mp h1).1
  have e1 : (rows.map Prod.fst)[i]? = some k := by
    rw [List.getElem?_map, h1]; rfl
  have e2 : (rows.map Prod.fst)[j]? = some k := by
    rw [List.getElem?_map, h2]; rfl
  have hij : i = j := List.getElem?_inj hlen hnd (e1.trans e2.symm)
  subst hij
  rw [h1] at h2
  exact ⟨rfl, (Prod.mk.inj (Option.some.inj h2)).2⟩

theorem effectiveMessage_empty : effectiveMessage "" = "Ding-A-Ling!" := by
  decide

theorem string_length_eq_zero (m : String) : m.length = 0 ↔ m = "" := by
  constructor
  · intro h0
    cases m with
    | mk data =>
      have hd : data = [] := List.length_eq_zero.mp h0
      rw [hd]
  · intro h
    rw [h]
    rfl

theorem effectiveMessage_nonempty (m : String) (h : m ≠ "") : effectiveMessage m = m := by
  have hl : m.length ≠ 0 := fun h0 => h ((string_length_eq_zero m).mp h0)
  simp [effectiveMessage, hl]

theorem queryClients_keys_nodup (store : Datastore) (key : Key)
    (h : (store.clients.map Prod.fst).Nodup) :
    ((queryClients store key).map Prod.fst).Nodup :=
  List.Nodup.sublist (List.Sublist.map Prod.fst (List.filter_sublist _)) h

/-! ## Properties of the broadcast -/

/-- C5, as stated, fails: when both `channel.Send` and `datastore.Delete` fail for
the client bob, bob is still among the clients of the dinger after `PostDing`. -/
theorem PostDing_keeps_client_when_delete_fails :
    (queryClients worldTwo.store dingerSeven)[0]? = some (bobKey, bob) ∧
      envSendDeleteFail.nextErr 0 = none ∧
      envSendDeleteFail.sendErr 0 bob.Id (effectiveMessage "") ≠ none ∧
      (PostDing envSendDeleteFail dingerSeven "" worldTwo).1 = none ∧
      (bobKey, bob) ∈
        queryClients (PostDing envSendDeleteFail dingerSeven "" worldTwo).2.store dingerSeven := by
  decide

/-- C5, amended. Pruning on delivery failure: suppose the datastore keys are distinct,
the iterator returns the row of client `c` in iteration `i`, and `channel.Send`
fails for `c`.  If `datastore.Delete` of the row succeeds, then after
`PostDing` no client of the dinger has the key of `c`.  If the `Delete` fails,
its error is logged and `c` is still a client of the dinger.  In both cases
every client of the dinger whose `Send` succeeds is still a client of the
dinger, `Send` has been called once for each row the iterator returned, in
order, and the errors logged are exactly those of the failed deletions. -/
theorem PostDing_prunes (env : Env) (key : Key) (message : String) (w : World)
    (i : Nat) (cKey : Key) (client : Client)
    (hkeys : (w.store.clients.map Prod.fst).Nodup)
    (hrow : (queryClients w.store key)[i]? = some (cKey, client))
    (hreach : ∀ j, j ≤ i → env.nextErr j = none)
    (hsend : env.sendErr i client.Id (effectiveMessage message) ≠ none) :
    (env.deleteErr i cKey = none →
        ∀ r ∈ queryClients (PostDing env key message w).2.store key, r.1 ≠ cKey) ∧
      (∀ err, env.deleteErr i cKey = some err →
        (cKey, client) ∈ queryClients (PostDing env key message w).2.store key ∧
        err ∈ (PostDing env key message w).2.logged) ∧
      (∀ j k2 c2, (queryClients w.store key)[j]? = some (k2, c2) →
        env.sendErr j c2.Id (effectiveMessage message) = none →
        (k2, c2) ∈ queryClients (PostDing env key message w).2.store key) ∧
      (PostDing env key message w).2.sent =
        w.sent ++ (enumerated env (queryClients w.store key)).map
          (fun r => (r.2.Id, effectiveMessage message)) ∧
      (PostDing env key message w).2.logged =
        w.logged ++ loggedFrom env (effectiveMessage message) 0 (queryClients w.store key) := by
  have hstore := (postLoop_store env (effectiveMessage message) (queryClients w.store key) 0 w).2
  have hpr := mem_prunedFrom env (effectiveMessage message)
  have hlog := postLoop_logged env (effectiveMessage message) (queryClients w.store key) 0 w
  have hnd := queryClients_keys_nodup w.store key hkeys
  -- a row of the query that is not pruned is still a row of the query afterwards
  have stays : ∀ k2 c2, (k2, c2) ∈ queryClients w.store key →
      k2 ∉ prunedFrom env (effectiveMessage message) 0 (queryClients w.store key) →
      (k2, c2) ∈ queryClients (PostDing env key message w).2.store key := by
    intro k2 c2 hmem hnp
    obtain ⟨hm1, hm2⟩ := List.mem_filter.mp hmem
    exact List.mem_filter.mpr ⟨(hstore (k2, c2)).mpr ⟨hm1, hnp⟩, hm2⟩
  refine ⟨?_, ?_, ?_, ?_, hlog⟩
  · intro hdel r hr hk
    have hr1 : r ∈ (PostDing env key message w).2.store.clients := (List.mem_filter.mp hr).1
    have hr2 := ((hstore r).mp hr1).2
    apply hr2
    rw [hk, hpr cKey (queryClients w.store key) 0]
    exact ⟨i, client, hrow, by simpa using hreach, by simpa using hsend, by simpa using hdel⟩
  · intro err hdel
    constructor
    · refine stays cKey client (List.getElem?_mem hrow) ?_
      intro hp
      obtain ⟨i2, c3, h1, _, _, h4⟩ := (hpr cKey (queryClients w.store key) 0).mp hp
      obtain ⟨hij, _⟩ := row_index_unique _ hnd h1 hrow
      subst hij
      rw [Nat.zero_add, hdel] at h4
      exact Option.noConfusion h4
    · show err ∈ (postLoop env (effectiveMessage message) 0 (queryClients w.store key) w).2.logged
      rw [hlog]
      refine List.mem_append_right _ ?_
      exact mem_loggedFrom env (effectiveMessage message) (queryClients w.store key) 0 i cKey
        client err hrow (by simpa using hreach) (by simpa using hsend) (by simpa using hdel)
  · intro j k2 c2 hj hok
    refine stays k2 c2 (List.getElem?_mem hj) ?_
    intro hp
    obtain ⟨i2, c3, h1, _, h3, _⟩ := (hpr k2 (queryClients w.store key) 0).mp hp
    obtain ⟨hij, hc⟩ := row_index_unique _ hnd h1 hj
    subst hij hc
    apply h3
    simpa using hok
  · exact postLoop_sent env (effectiveMessage message) (queryClients w.store key) 0 w

theorem PostDing_prunes_witness :
    (∀ r ∈ queryClients (PostDing envBobGone dingerSeven "" worldTwo).2.store dingerSeven,
        r.1 ≠ bobKey) ∧
      ((bobKey, bob) ∈
          queryClients (PostDing envSendDeleteFail dingerSeven "" worldTwo).2.store dingerSeven ∧
        Error.external "delete failed" ∈
          (PostDing envSendDeleteFail dingerSeven "" worldTwo).2.logged) ∧
      (aliceKey, alice) ∈
        queryClients (PostDing envBobGone dingerSeven "" worldTwo).2.store dingerSeven ∧
      (PostDing envBobGone dingerSeven "" worldTwo).2.sent
        = [("bob", "Ding-A-Ling!"), ("alice", "Ding-A-Ling!")] ∧
      (PostDing envSendDeleteFail dingerSeven "" worldTwo).2.logged
        = [Error.external "delete failed", Error.external "delete failed"] :=
  ⟨(PostDing_prunes envBobGone dingerSeven "" worldTwo 0 bobKey bob (by decide) (by decide)
      (fun _ _ => rfl) (by decide)).1 rfl,
    (PostDing_prunes envSendDeleteFail dingerSeven "" worldTwo 0 bobKey bob (by decide)
      (by decide) (fun _ _ => rfl) (by decide)).2.1 (Error.external "delete failed") rfl,
    (PostDing_prunes envBobGone dingerSeven "" worldTwo 0 bobKey bob (by decide) (by decide)
      (fun _ _ => rfl) (by decide)).2.2.1 1 aliceKey alice (by decide) (by decide),
    (PostDing_prunes envBobGone dingerSeven "" worldTwo 0 bobKey bob (by decide) (by decide)
      (fun _ _ => rfl) (by decide)).2.2.2.1.trans (by decide),
    (PostDing_prunes envSendDeleteFail dingerSeven "" worldTwo 0 bobKey bob (by decide)
      (by decide) (fun _ _ => rfl) (by decide)).2.2.2.2.trans (by decide)⟩

/-- C6. `PostDing` returns an error exactly when the enumeration of the clients
fails; when no call of `Next` fails it returns `nil` whatever `channel.Send`
and `datastore.Delete` do; and for a dinger without clients it returns `nil`
and leaves everything as it was, no `Send` being attempted. -/
theorem PostDing_error_iff (env : Env) (key : Key) (message : String) (w : World) :
    ((PostDing env key message w).1 ≠ none ↔
        enumerationFails env (queryClients w.store key).length) ∧
      ((∀ j, j ≤ (queryClients w.store key).length → env.nextErr j = none) →
        (PostDing env key message w).1 = none) ∧
      (queryClients w.store key = [] → env.nextErr 0 = none →
        PostDing env key message w = (none, w)) := by
  have herr := postLoop_err env (effectiveMessage message) (queryClients w.store key) 0 w
  simp only [Nat.zero_add] at herr
  refine ⟨?_, ?_, ?_⟩
  · rw [Ne, PostDing, herr, enumerationFails]
    push_neg
    rfl
  · intro h
    exact herr.mpr h
  · intro hnil h0
    rw [PostDing, hnil, postLoop_nil, h0]

theorem PostDing_error_iff_witness :
    (PostDing envSendDeleteFail dingerSeven "" worldTwo).1 = none ∧
      PostDing envOk dingerSeven "ding" worldEmpty = (none, worldEmpty) :=
  ⟨(PostDing_error_iff envSendDeleteFail dingerSeven "" worldTwo).2.1 (fun _ _ => rfl),
    (PostDing_error_iff envOk dingerSeven "ding" worldEmpty).2.2 (by decide) rfl⟩

/-- C7. Default broadcast text: `PostDing` with the empty message calls `channel.Send`
with the payload `"Ding-A-Ling!"` for every row the iterator returns, and with
a non-empty message `m` it calls `Send` with exactly `m`; in both cases the
routing key is the `Id` of the client of the row. -/
theorem PostDing_payload (env : Env) (key : Key) (w : World) :
    (PostDing env key "" w).2.sent =
        w.sent ++ (enumerated env (queryClients w.store key)).map
          (fun r => (r.2.Id, "Ding-A-Ling!")) ∧
      ∀ m, m ≠ "" → (PostDing env key m w).2.sent =
        w.sent ++ (enumerated env (queryClients w.store key)).map (fun r => (r.2.Id, m)) := by
  constructor
  · have h := postLoop_sent env (effectiveMessage "") (queryClients w.store key) 0 w
    rw [effectiveMessage_empty] at h
    exact h
  · intro m hm
    rw [PostDing, effectiveMessage_nonempty m hm]
    exact postLoop_sent env m (queryClients w.store key) 0 w

theorem PostDing_payload_witness :
    (PostDing envBobGone dingerSeven "lunch" worldTwo).2.sent = [("bob", "lunch"), ("alice", "lunch")] ∧
      (PostDing envBobGone dingerSeven "" worldTwo).2.sent
        = [("bob", "Ding-A-Ling!"), ("alice", "Ding-A-Ling!")] :=
  ⟨((PostDing_payload envBobGone dingerSeven worldTwo).2 "lunch" (by decide)).trans (by decide),
    (PostDing_payload envBobGone dingerSeven worldTwo).1.trans (by decide)⟩

/-! ## Client and dinger creation -/

theorem Table.get_put {α : Type} (t : Table α) (k : Key) (v : α) :
    (t.put k v).get k = some v := by
  have hnone : List.find? (fun r => decide (r.1 = k)) (t.delete k) = none := by
    rw [List.find?_eq_none]
    intro r hr
    have := (List.mem_filter.mp hr).2
    simpa using this
  simp [Table.get, Table.put, List.find?_append, hnone]

/-- C8. Atomic failure of `MakeClient`: when the random id cannot be generated or
`channel.Create` fails, `MakeClient` returns no client, the error of the failed
call, and leaves the datastore (indeed everything) unchanged; the datastore
changes only if a token was obtained; and when a client is returned, the token
is the one `channel.Create` gave for its id and the record stored under the
new key is exactly that client. -/
theorem MakeClient_atomic (env : Env) (dingerKey : Key) (w : World) :
    (∀ err, env.randInt = .error err → MakeClient env dingerKey w = (.error err, w)) ∧
      (∀ randId err, env.randInt = .ok randId →
        env.channelCreate (env.digest (KeyToDingerId dingerKey ++ Nat.repr randId)) = .error err →
        MakeClient env dingerKey w = (.error err, w)) ∧
      ((MakeClient env dingerKey w).2.store ≠ w.store →
        ∃ randId tok, env.randInt = .ok randId ∧
          env.channelCreate (env.digest (KeyToDingerId dingerKey ++ Nat.repr randId)) = .ok tok ∧
          (MakeClient env dingerKey w).1 = .ok
            { Id := env.digest (KeyToDingerId dingerKey ++ Nat.repr randId), Token := tok }) ∧
      (∀ client, (MakeClient env dingerKey w).1 = .ok client →
        env.channelCreate client.Id = .ok client.Token ∧
        (MakeClient env dingerKey w).2.store.clients.get
          (putKey env (NewKey CLIENT_KEY_KIND "" 0 (some dingerKey))) = some client ∧
        (MakeClient env dingerKey w).2.store.dingers = w.store.dingers) := by
  refine ⟨?_, ?_, ?_, ?_⟩
  · intro err h
    simp [MakeClient, h]
  · intro randId err h1 h2
    simp [MakeClient, h1, h2]
  · intro hchg
    cases h1 : env.randInt with
    | error err => simp [MakeClient, h1] at hchg
    | ok randId =>
      cases h2 : env.channelCreate (env.digest (KeyToDingerId dingerKey ++ Nat.repr randId)) with
      | error err => simp [MakeClient, h1, h2] at hchg
      | ok tok =>
        cases h3 : env.putErr with
        | some err => simp [MakeClient, h1, h2, putClient, h3] at hchg
        | none =>
          refine ⟨randId, tok, rfl, h2, ?_⟩
          simp [MakeClient, h1, h2, putClient, h3]
  · intro client hok
    cases h1 : env.randInt with
    | error err => simp [MakeClient, h1] at hok
    | ok randId =>
      cases h2 : env.channelCreate (env.digest (KeyToDingerId dingerKey ++ Nat.repr randId)) with
      | error err => simp [MakeClient, h1, h2] at hok
      | ok tok =>
        cases h3 : env.putErr with
        | some err => simp [MakeClient, h1, h2, putClient, h3] at hok
        | none =>
          simp only [MakeClient, h1, h2, putClient, h3, Except.ok.injEq] at hok
          subst hok
          refine ⟨h2, ?_, ?_⟩
          · simp only [MakeClient, h1, h2, putClient, h3]
            exact Table.get_put _ _ _
          · simp [MakeClient, h1, h2, putClient, h3]

theorem MakeClient_atomic_witness :
    MakeClient envCreateFail dingerSeven worldTwo = (.error (.external "no channel"), worldTwo) ∧
      (MakeClient envOk dingerSeven worldTwo).2.store.clients.get
          (putKey envOk (NewKey CLIENT_KEY_KIND "" 0 (some dingerSeven)))
        = some { Id := "sha1:742", Token := "token-sha1:742" } :=
  ⟨(MakeClient_atomic envCreateFail dingerSeven worldTwo).2.1 42 (.external "no channel") rfl rfl,
    ((MakeClient_atomic envOk dingerSeven worldTwo).2.2.2
      { Id := "sha1:742", Token := "token-sha1:742" } (by decide)).2.1⟩

/-- C9. Default dinger name: when the datastore accepts the record, creating a dinger
with the empty name stores a `Dinger` whose `Name` is `"Untitled dinger"`, and
creating one with a non-empty name `n` stores a `Dinger` whose `Name` is `n`;
the name reported back equals the name stored: when `json.Marshal` and the
response writer succeed the handler returns no error and writes a response
with that name, and whenever it returns no error the response written has
that name. -/
theorem handleNewDinger_name (env : Env) (rw : ResponseWriter) (r : Request) (w : World)
    (hput : env.putErr = none) :
    (r.FormValue "name" = "" → createsDingerNamed env rw r w "Untitled dinger") ∧
      (r.FormValue "name" ≠ "" → createsDingerNamed env rw r w (r.FormValue "name")) := by
  have key_fact : ∀ name : String,
      (if (r.FormValue "name").length = 0 then "Untitled dinger" else r.FormValue "name") = name →
      createsDingerNamed env rw r w name := by
    intro name hname
    have hres : handleNewDinger env rw r w =
        ((jsonResponse env rw (newDingerResponse env r name)).1,
          (jsonResponse env rw (newDingerResponse env r name)).2,
          { w with store := { w.store with
              dingers := w.store.dingers.put (newDingerKey env) { Name := name } } }) := by
      simp only [handleNewDinger, MakeDinger, putDinger, hput, hname, newDingerResponse,
        newDingerKey]
    rw [createsDingerNamed, hres]
    refine ⟨Table.get_put _ _ _, ?_, ?_⟩
    · intro hm hw
      simp [jsonResponse, hm, hw]
    · intro herr
      revert herr
      simp only [jsonResponse]
      cases env.marshalErr with
      | some e => simp
      | none =>
        cases env.writeErr with
        | some e => simp
        | none => simp
  constructor
  · intro h
    apply key_fact
    rw [if_pos ((string_length_eq_zero _).mpr h)]
  · intro h
    apply key_fact
    rw [if_neg (fun h0 => h ((string_length_eq_zero _).mp h0))]

theorem handleNewDinger_name_witness :
    ((handleNewDinger envOk writerEmpty (requestNamed "") worldEmpty).2.2.store.dingers.get
          (Key.root "Dinger" "" 1001) = some { Name := "Untitled dinger" } ∧
        (handleNewDinger envOk writerEmpty (requestNamed "") worldEmpty).1 = none ∧
        (handleNewDinger envOk writerEmpty (requestNamed "") worldEmpty).2.1 =
          { contentType := some "text/javascript",
            body := some { Name := "Untitled dinger", URL := "http://example.org/d/1001" } }) ∧
      ((handleNewDinger envOk writerEmpty (requestNamed "Party") worldEmpty).2.2.store.dingers.get
          (Key.root "Dinger" "" 1001) = some { Name := "Party" } ∧
        (handleNewDinger envOk writerEmpty (requestNamed "Party") worldEmpty).1 = none ∧
        (handleNewDinger envOk writerEmpty (requestNamed "Party") worldEmpty).2.1 =
          { contentType := some "text/javascript",
            body := some { Name := "Party", URL := "http://example.org/d/1001" } }) :=
  ⟨⟨((handleNewDinger_name envOk writerEmpty (requestNamed "") worldEmpty rfl).1 (by decide)).1,
      (((handleNewDinger_name envOk writerEmpty (requestNamed "") worldEmpty rfl).1
        (by decide)).2.1 rfl rfl).1,
      (((handleNewDinger_name envOk writerEmpty (requestNamed "") worldEmpty rfl).1
        (by decide)).2.1 rfl rfl).2.trans (by decide)⟩,
    ⟨((handleNewDinger_name envOk writerEmpty (requestNamed "Party") worldEmpty rfl).2
        (by decide)).1,
      (((handleNewDinger_name envOk writerEmpty (requestNamed "Party") worldEmpty rfl).2
        (by decide)).2.1 rfl rfl).1,
      (((handleNewDinger_name envOk writerEmpty (requestNamed "Party") worldEmpty rfl).2
        (by decide)).2.1 rfl rfl).2.trans (by decide)⟩⟩

end Dingaling
